import Mathlib

/-!
Verification of the finstream financial projection engine
(`src/first_million.py`, duplicated as `src/calculators/first_million.py`;
the two files agree on lines 1-172) and the `BudgetGoal` data model
(`src/models/budget_goal.py`).

Python floats are modelled as exact rationals (ℚ): every float is a
rational, and the spec's properties are stated up to 1e-6 relative
tolerance, over which the idealised rational semantics is the intended
reading.  Integer quantities (months, years) are ℕ/ℤ.  Functions that
Python writes as loops are embedded as fuel-based structural recursions
whose fuel bounds come from the loop's own entry conditions.
-/

/-! ## Common numeric helpers -/

/-- `a` is within relative tolerance `tol` of the reference value `b`. -/
def relClose (tol a b : ℚ) : Prop := |a - b| ≤ tol * |b|

instance (tol a b : ℚ) : Decidable (relClose tol a b) := by
  unfold relClose; infer_instance

/-- One month of the iterative simulation used by
`calculate_time_to_goal`, `calculate_required_monthly_investment` and
`create_investment_timeline` (lines 179-182, 211-214, 238-241):
deposit the contribution, then accrue interest on the post-deposit
balance. -/
def stepBal (c r b : ℚ) : ℚ :=
  let b1 := b + c
  b1 + b1 * r

/-- Balance after `n` months of the iterative simulation starting from
`init`, with monthly contribution `c` and monthly rate `r`. -/
def iterBal (c r init : ℚ) : ℕ → ℚ
  | 0 => init
  | n + 1 => stepBal c r (iterBal c r init n)

/-! ## `calculate_future_value` (first_million.py lines 10-31) -/

/-- `calculate_future_value(initial_amount, monthly_aport, years, annual_return)`:
annual compounding on the principal plus the ordinary-annuity closed form
for the monthly contributions, with a linear branch when the monthly rate
is not positive. -/
def calculate_future_value (initial_amount monthly_aport : ℚ) (years : ℕ)
    (annual_return : ℚ) : ℚ :=
  let months : ℕ := years * 12
  let monthly_rate := annual_return / 12
  let initial_fv := initial_amount * (1 + annual_return) ^ years
  let contribution_fv :=
    if 0 < monthly_rate then
      monthly_aport * ((1 + monthly_rate) ^ months - 1) / monthly_rate
    else
      monthly_aport * (months : ℚ)
  initial_fv + contribution_fv

/-! ## `calculate_minimum_aport` (first_million.py lines 54-79) -/

/-- `calculate_minimum_aport(initial_amount, desired_amount, years, annual_return)`:
the closed-form monthly payment solving the future-value formula for the
remaining amount, rounded up to the nearest 100. -/
def calculate_minimum_aport (initial_amount desired_amount : ℚ) (years : ℕ)
    (annual_return : ℚ) : ℚ :=
  let months : ℕ := years * 12
  let monthly_rate := annual_return / 12
  let future_value_initial := initial_amount * (1 + annual_return) ^ years
  let remaining_value := desired_amount - future_value_initial
  let monthly_payment :=
    if 0 < monthly_rate then
      remaining_value * monthly_rate / ((1 + monthly_rate) ^ months - 1)
    else
      remaining_value / (months : ℚ)
  (⌈monthly_payment / 100⌉ : ℚ) * 100

/-! ## `calculate_required_monthly_investment` (first_million.py, calculators copy, lines 196-219) -/

/-- `calculate_required_monthly_investment(initial_amount, years, annual_return, goal_amount)`:
the pre-rounding closed-form monthly payment, together with the final
amount, total invested and total interest obtained by re-simulating the
payment month by month.  Returns
`(monthly_payment, current_amount, total_invested, total_interest)`. -/
def calculate_required_monthly_investment (initial_amount : ℚ) (years : ℕ)
    (annual_return goal_amount : ℚ) : ℚ × ℚ × ℚ × ℚ :=
  let months : ℕ := years * 12
  let monthly_rate := annual_return / 12
  let future_value_initial := initial_amount * (1 + annual_return) ^ years
  let remaining_value := goal_amount - future_value_initial
  let monthly_payment :=
    if 0 < monthly_rate then
      remaining_value * monthly_rate / ((1 + monthly_rate) ^ months - 1)
    else
      remaining_value / (months : ℚ)
  let current_amount := iterBal monthly_payment monthly_rate initial_amount months
  let total_invested := initial_amount + monthly_payment * (months : ℚ)
  (monthly_payment, current_amount, total_invested, current_amount - total_invested)

/-! ## `calculate_time_to_goal` (calculators/first_million.py lines 173-193) -/

/-- The `while current_amount < goal_amount` loop of
`calculate_time_to_goal`.  `fuel` is how many more iterations may run
before `total_months` would exceed 1200; the loop enters with
`fuel = 1200`, and reaching `fuel = 0` with the balance still below the
goal is exactly the Python `total_months > 1200` early return of `None`.
Returns `(total_months, current_amount)` on success. -/
def timeToGoalLoop (c r goal : ℚ) : ℕ → ℚ → ℕ → Option (ℕ × ℚ)
  | 0, cur, m => if cur < goal then none else some (m, cur)
  | fuel + 1, cur, m =>
    if cur < goal then timeToGoalLoop c r goal fuel (stepBal c r cur) (m + 1)
    else some (m, cur)

/-- `calculate_time_to_goal(initial_amount, monthly_investment, annual_return, goal_amount)`:
simulate month by month until the goal is reached; `none` models the
`return None` taken once more than 1200 months have elapsed.  On success
returns `(years, months, current_amount, total_invested, total_interest)`. -/
def calculate_time_to_goal (initial_amount monthly_investment annual_return
    goal_amount : ℚ) : Option (ℕ × ℕ × ℚ × ℚ × ℚ) :=
  let monthly_rate := annual_return / 12
  match timeToGoalLoop monthly_investment monthly_rate goal_amount 1200 initial_amount 0 with
  | none => none
  | some (total_months, current_amount) =>
    let total_invested := initial_amount + monthly_investment * (total_months : ℚ)
    some (total_months / 12, total_months % 12, current_amount, total_invested,
      current_amount - total_invested)

/-! ## `create_investment_timeline` (calculators/first_million.py lines 222-255) -/

/-- One row of the monthly timeline DataFrame. -/
structure ProjectionPoint where
  month : ℕ
  totalAmount : ℚ
  totalInvested : ℚ
  totalReturns : ℚ
  monthlyReturn : ℚ

/-- The `for month in range(1, years*12 + 1)` loop of
`create_investment_timeline`: emits the points for months
`month, month+1, …` (`k` of them), threading the running balance. -/
def timelineGo (initial_amount monthly_investment monthly_rate : ℚ) :
    ℕ → ℕ → ℚ → List ProjectionPoint
  | 0, _, _ => []
  | k + 1, month, current_amount =>
    let after_deposit := current_amount + monthly_investment
    let interest := after_deposit * monthly_rate
    let new_amount := after_deposit + interest
    let total_invested := initial_amount + monthly_investment * (month : ℚ)
    { month := month, totalAmount := new_amount, totalInvested := total_invested,
      totalReturns := new_amount - total_invested, monthlyReturn := interest } ::
      timelineGo initial_amount monthly_investment monthly_rate k (month + 1) new_amount

/-- `create_investment_timeline(initial_amount, monthly_investment, years, annual_return)`:
month-0 row holding the initial principal with zero returns, followed by
one simulated row per month up to `years*12`. -/
def create_investment_timeline (initial_amount monthly_investment : ℚ) (years : ℕ)
    (annual_return : ℚ) : List ProjectionPoint :=
  let monthly_rate := annual_return / 12
  { month := 0, totalAmount := initial_amount, totalInvested := initial_amount,
    totalReturns := 0, monthlyReturn := 0 } ::
    timelineGo initial_amount monthly_investment monthly_rate (years * 12) 1 initial_amount

/-- Closed form of the month-by-month simulation actually performed by
`create_investment_timeline`: the principal compounds at the monthly rate
every month, and contributions form an annuity-due (deposit first, then
interest).  This is the value the final timeline row reaches; it differs
from `calculate_future_value`, which compounds the principal annually and
uses an ordinary annuity. -/
def futureValueMonthlyDue (initial_amount monthly_investment : ℚ) (years : ℕ)
    (annual_return : ℚ) : ℚ :=
  let months : ℕ := years * 12
  let monthly_rate := annual_return / 12
  if 0 < monthly_rate then
    initial_amount * (1 + monthly_rate) ^ months +
      monthly_investment * (1 + monthly_rate) *
        ((1 + monthly_rate) ^ months - 1) / monthly_rate
  else
    initial_amount + monthly_investment * (months : ℚ)

/-! ## `BudgetGoal` (models/budget_goal.py lines 5-21) -/

/-- The validated dataclass: a mapping from category name to percentage. -/
structure BudgetGoal where
  allocations : List (String × ℚ)

/-- Constructing a `BudgetGoal`: `__post_init__` raises (here: `none`)
when the total allocation exceeds 100, or when some category's
percentage is negative; otherwise the object exists. -/
def budgetGoalMake (allocations : List (String × ℚ)) : Option BudgetGoal :=
  let total := (allocations.map (fun p => p.2)).sum
  if 100 < total then none
  else if allocations.any (fun p => decide (p.2 < 0)) then none
  else some ⟨allocations⟩

/-! ## `calculate_year_ranges` (first_million.py lines 102-154) -/

/-- The binary search of lines 119-128: narrow `[lo, hi]` to the smallest
year count at which the future value of investing half the monthly income
reaches the desired amount.  `fuel` bounds the iteration count;
`(hi - lo).toNat` always suffices since the interval shrinks every step.
Year counts stay within `[min_years, max_years]`, which the claims keep
positive, so `Int.toNat` is exact where it is used. -/
def minYearsSearch (initial_amount max_monthly_investment annual_return
    desired_amount : ℚ) : ℕ → ℤ → ℤ → ℤ
  | 0, lo, _ => lo
  | fuel + 1, lo, hi =>
    if lo < hi then
      let mid := (lo + hi).fdiv 2
      if desired_amount ≤
          calculate_future_value initial_amount max_monthly_investment mid.toNat
            annual_return then
        minYearsSearch initial_amount max_monthly_investment annual_return
          desired_amount fuel lo mid
      else
        minYearsSearch initial_amount max_monthly_investment annual_return
          desired_amount fuel (mid + 1) hi
    else lo

/-- `min_years_needed` as computed by lines 112-128: the binary search run
with `max_monthly_investment = monthly_income * 0.5`. -/
def minYearsNeeded (initial_amount desired_amount monthly_income annual_return : ℚ)
    (min_years max_years : ℤ) : ℤ :=
  let max_monthly_investment := monthly_income * 0.5
  minYearsSearch initial_amount max_monthly_investment annual_return desired_amount
    (max_years - min_years).toNat min_years max_years

/-- `min_range = max(min_years, min_years_needed - 5)` (line 131). -/
def windowLo (initial_amount desired_amount monthly_income annual_return : ℚ)
    (min_years max_years : ℤ) : ℤ :=
  max min_years
    (minYearsNeeded initial_amount desired_amount monthly_income annual_return
      min_years max_years - 5)

/-- `max_range = min(max_years, min_years_needed + 20)` (line 132). -/
def windowHi (initial_amount desired_amount monthly_income annual_return : ℚ)
    (min_years max_years : ℤ) : ℤ :=
  min max_years
    (minYearsNeeded initial_amount desired_amount monthly_income annual_return
      min_years max_years + 20)

/-- Python `range(a, b, s)` for a positive step, over ℤ: the
`⌈(b-a)/s⌉`-many values `a, a+s, …` that stay below `b`. -/
def rangeInt (a b s : ℤ) : List ℤ :=
  (List.range ((b - a + s - 1).fdiv s).toNat).map (fun i : ℕ => a + s * (i : ℤ))

/-- The `while len(year_ranges) > num_points` loop (lines 139-142):
repeatedly remove the element at index `len // 2`. -/
def popMiddle (num_points : ℕ) : ℕ → List ℤ → List ℤ
  | 0, l => l
  | fuel + 1, l =>
    if num_points < l.length then
      popMiddle num_points fuel (l.eraseIdx (l.length / 2))
    else l

/-- The gap list `[(year_ranges[i+1] - year_ranges[i], i) for i in
range(len(year_ranges) - 1)]` of lines 146-149. -/
def gapList (l : List ℤ) : List (ℤ × ℕ) :=
  (List.range (l.length - 1)).map (fun i => (l.getD (i + 1) 0 - l.getD i 0, i))

/-- Python `max` over `(gap, index)` tuples: lexicographic order, keeping
the earliest maximal element. -/
def maxPairFrom : ℤ × ℕ → List (ℤ × ℕ) → ℤ × ℕ
  | p, [] => p
  | p, q :: rest =>
    maxPairFrom (if p.1 < q.1 ∨ (p.1 = q.1 ∧ p.2 < q.2) then q else p) rest

/-- The `while len(year_ranges) < num_points` loop (lines 144-152):
insert `year_ranges[idx] + max_gap // 2` after the index of the largest
gap.  (Python's `max` on an empty sequence raises; the `(0, 0)` default
is only ever reached on lists shorter than two elements, where the
original code errors out.) -/
def insertGaps (num_points : ℕ) : ℕ → List ℤ → List ℤ
  | 0, l => l
  | fuel + 1, l =>
    if l.length < num_points then
      let gaps := gapList l
      let mg := maxPairFrom (gaps.headD (0, 0)) gaps.tail
      insertGaps num_points fuel
        (l.insertNth (mg.2 + 1) (l.getD mg.2 0 + mg.1.fdiv 2))
    else l

/-- Ordered insertion, one step of the insertion sort modelling Python's
`sorted`. -/
def insertAsc (a : ℤ) : List ℤ → List ℤ
  | [] => [a]
  | b :: t => if a ≤ b then a :: b :: t else b :: insertAsc a t

/-- Python `sorted` (ascending) as insertion sort. -/
def sortAsc : List ℤ → List ℤ
  | [] => []
  | a :: t => insertAsc a (sortAsc t)

/-- `calculate_year_ranges(initial_amount, desired_amount, monthly_income,
annual_return, min_years, max_years, num_points)` (lines 102-154). -/
def calculate_year_ranges (initial_amount desired_amount monthly_income
    annual_return : ℚ) (min_years max_years : ℤ) (num_points : ℕ) : List ℤ :=
  let min_range := windowLo initial_amount desired_amount monthly_income
    annual_return min_years max_years
  let max_range := windowHi initial_amount desired_amount monthly_income
    annual_return min_years max_years
  let step := max ((max_range - min_range).fdiv ((num_points : ℤ) - 1)) 1
  let year_ranges := rangeInt min_range (max_range + 1) step
  let trimmed := popMiddle num_points year_ranges.length year_ranges
  sortAsc (insertGaps num_points num_points trimmed)

/-! ## `create_aport_amounts` (first_million.py lines 82-99) -/

/-- Round-half-to-even of a real number, as Python's builtin `round` does
at integer precision. -/
noncomputable def roundHalfEven (t : ℝ) : ℤ :=
  if Int.fract t < 1/2 then ⌊t⌋
  else if 1/2 < Int.fract t then ⌊t⌋ + 1
  else if Even ⌊t⌋ then ⌊t⌋ else ⌊t⌋ + 1

/-- Python `round(x, 2)`: cent precision, halves rounded to even. -/
noncomputable def round2R (x : ℝ) : ℝ := (roundHalfEven (x * 100) : ℝ) / 100

/-- `base_aport` (line 89): 1% of the monthly income, rounded up to the
next multiple of 100. -/
noncomputable def baseAport (annual_income : ℚ) : ℝ :=
  (⌈((annual_income : ℝ) / 12) * 0.01 / 100⌉ : ℤ) * 100

/-- `create_aport_amounts(annual_income, min_aport, qtd)` (lines 82-99):
`qtd` candidate contribution amounts from the affordable baseline towards
the minimum required contribution, by arithmetic progression when
`min_aport ≤ base_aport` and geometric progression otherwise.  The inputs
are rationals (Python floats), but the geometric branch takes a real
`qtd-1`-th root, so the amounts live in ℝ. -/
noncomputable def create_aport_amounts (annual_income min_aport : ℚ) (qtd : ℕ) :
    List ℝ :=
  let base_aport := baseAport annual_income
  if (min_aport : ℝ) ≤ base_aport then
    let step := ((min_aport : ℝ) - base_aport) / ((qtd : ℝ) - 1)
    (List.range qtd).map (fun i : ℕ => round2R (base_aport + step * (i : ℝ)))
  else
    let gr := ((min_aport : ℝ) / base_aport) ^ ((1 : ℝ) / ((qtd : ℝ) - 1))
    (List.range qtd).map (fun i : ℕ => round2R (base_aport * gr ^ i))

/-! # Theorems -/

/-! ## Simulation lemmas -/

theorem stepBal_eq (c r b : ℚ) : stepBal c r b = (b + c) * (1 + r) := by
  unfold stepBal; ring

theorem iterBal_shift (c r init : ℚ) (n : ℕ) :
    iterBal c r (stepBal c r init) n = iterBal c r init (n + 1) := by
  induction n with
  | zero => rfl
  | succ k ih => simp only [iterBal, ih]

theorem iterBal_zero_rate (c init : ℚ) (n : ℕ) :
    iterBal c 0 init n = init + c * n := by
  induction n with
  | zero => simp [iterBal]
  | succ k ih =>
    simp only [iterBal, stepBal_eq, ih]
    push_cast
    ring

theorem iterBal_closed_form (c r init : ℚ) (hr : r ≠ 0) (n : ℕ) :
    iterBal c r init n =
      init * (1 + r) ^ n + c * (1 + r) * ((1 + r) ^ n - 1) / r := by
  induction n with
  | zero => simp [iterBal]
  | succ k ih =>
    simp only [iterBal, stepBal_eq, ih]
    field_simp
    ring

/-! ## C7: zero-rate linearity -/

/-- Claim C7 (confirmed): with `annualReturnRate = 0` the linear branch is
taken and `calculate_future_value i c y 0 = i + c * y * 12` exactly. -/
theorem zero_rate_linearity (i c : ℚ) (y : ℕ) (hi : 0 ≤ i) (hc : 0 ≤ c) :
    calculate_future_value i c y 0 = i + c * (y : ℚ) * 12 := by
  simp [calculate_future_value]
  ring

/-- Witness for C7 at `i = 500`, `c = 30`, `y = 4`. -/
theorem zero_rate_linearity_witness :
    ((0:ℚ) ≤ 500 ∧ (0:ℚ) ≤ 30) ∧
      calculate_future_value 500 30 4 0 = 500 + 30 * (4 : ℚ) * 12 :=
  ⟨⟨by norm_num, by norm_num⟩, zero_rate_linearity 500 30 4 (by norm_num) (by norm_num)⟩

/-! ## C2: solver round-trip -/

/-- Claim C2 (confirmed): feeding the pre-rounding payment returned by
`calculate_required_monthly_investment` back into
`calculate_future_value` reproduces the goal amount (in the rational
semantics the agreement is exact, hence within 1e-6 relative
tolerance). -/
theorem solver_roundtrip (i goal : ℚ) (y : ℕ) (R : ℚ)
    (hi : 0 ≤ i) (hgoal : 0 < goal) (hy : 1 ≤ y) (hR : 0 ≤ R) :
    relClose (1/1000000)
      (calculate_future_value i
        (calculate_required_monthly_investment i y R goal).1 y R)
      goal := by
  have hm : ((y * 12 : ℕ) : ℚ) ≠ 0 := Nat.cast_ne_zero.mpr (by omega)
  have key : calculate_future_value i
      (calculate_required_monthly_investment i y R goal).1 y R = goal := by
    simp only [calculate_required_monthly_investment, calculate_future_value]
    set r := R / 12 with hr12
    by_cases hr : 0 < r
    · have hpow : (1:ℚ) < (1 + r) ^ (y * 12) :=
        one_lt_pow₀ (by linarith) (by omega)
      have hD : (1 + r) ^ (y * 12) - 1 ≠ 0 := ne_of_gt (by linarith)
      have hr0 : r ≠ 0 := ne_of_gt hr
      simp only [if_pos hr]
      field_simp
    · simp only [if_neg hr]
      field_simp
  rw [key]
  unfold relClose
  simp only [sub_self, abs_zero]
  positivity

/-- Witness for C2 at `i = 0`, `goal = 1000000`, `y = 10`, `R = 1/10`. -/
theorem solver_roundtrip_witness :
    ((0:ℚ) ≤ 0 ∧ (0:ℚ) < 1000000 ∧ (1:ℕ) ≤ 10 ∧ (0:ℚ) ≤ 1/10) ∧
      relClose (1/1000000)
        (calculate_future_value 0
          (calculate_required_monthly_investment 0 10 (1/10) 1000000).1 10 (1/10))
        1000000 :=
  ⟨⟨le_refl 0, by norm_num, by norm_num, by norm_num⟩,
    solver_roundtrip 0 1000000 10 (1/10) (le_refl 0) (by norm_num) (by norm_num)
      (by norm_num)⟩

/-! ## C10: goal already met -/

/-- Claim C10 (confirmed): when the initial amount already reaches the
goal, `calculate_time_to_goal` succeeds immediately with
`years = 0, months = 0, finalAmount = initial, totalInvested = initial,
totalInterest = 0`, for any contribution and any rate. -/
theorem time_to_goal_already_met (i c R goal : ℚ) (h : goal ≤ i) :
    calculate_time_to_goal i c R goal = some (0, 0, i, i, 0) := by
  have hloop : timeToGoalLoop c (R / 12) goal 1200 i 0 = some (0, i) := by
    unfold timeToGoalLoop
    rw [if_neg (not_lt.mpr h)]
  simp [calculate_time_to_goal, hloop]

/-- Witness for C10 at `i = 100`, `c = 0`, `R = 0`, `goal = 50`. -/
theorem time_to_goal_already_met_witness :
    ((50:ℚ) ≤ 100) ∧ calculate_time_to_goal 100 0 0 50 = some (0, 0, 100, 100, 0) :=
  ⟨by norm_num, time_to_goal_already_met 100 0 0 50 (by norm_num)⟩

/-! ## C4: unreachable goal -/

theorem timeToGoalLoop_eq_none_iff (c r goal : ℚ) :
    ∀ (fuel : ℕ) (cur : ℚ) (m : ℕ),
      timeToGoalLoop c r goal fuel cur m = none ↔
        ∀ k ≤ fuel, iterBal c r cur k < goal := by
  intro fuel
  induction fuel with
  | zero =>
    intro cur m
    unfold timeToGoalLoop
    constructor
    · intro h k hk
      interval_cases k
      by_contra hcur
      rw [if_neg (by simpa [iterBal] using hcur)] at h
      exact Option.some_ne_none _ h
    · intro h
      rw [if_pos (by simpa [iterBal] using h 0 le_rfl)]
  | succ f ih =>
    intro cur m
    unfold timeToGoalLoop
    by_cases hcur : cur < goal
    · rw [if_pos hcur, ih]
      constructor
      · intro h k hk
        match k with
        | 0 => simpa [iterBal]
        | j + 1 =>
          have := h j (by omega)
          rwa [iterBal_shift] at this
      · intro h k hk
        rw [iterBal_shift]
        exact h (k + 1) (by omega)
    · rw [if_neg hcur]
      constructor
      · intro h
        exact absurd h (Option.some_ne_none _)
      · intro h
        exact absurd (by simpa [iterBal] using h 0 (by omega)) hcur

/-- Claim C4 (confirmed): `calculate_time_to_goal` (a total function here,
so it terminates on every input) returns `None` — the `GoalUnreachable`
condition — exactly when the simulated balance stays below the goal for
every month up to the 1200-month safety horizon; in particular it does so
for `(initial 0, contribution 0, annual rate 0.01, goal 1000000)`. -/
theorem goal_unreachable :
    calculate_time_to_goal 0 0 (1/100) 1000000 = none ∧
    ∀ (i c R goal : ℚ),
      (calculate_time_to_goal i c R goal = none ↔
        ∀ n ≤ 1200, iterBal c (R / 12) i n < goal) := by
  have main : ∀ (i c R goal : ℚ),
      (calculate_time_to_goal i c R goal = none ↔
        ∀ n ≤ 1200, iterBal c (R / 12) i n < goal) := by
    intro i c R goal
    unfold calculate_time_to_goal
    rcases h : timeToGoalLoop c (R / 12) goal 1200 i 0 with - | mc
    · simpa [h] using (timeToGoalLoop_eq_none_iff c (R / 12) goal 1200 i 0).mp h
    · obtain ⟨m, cur⟩ := mc
      simp only [h]
      constructor
      · intro hfalse
        exact absurd hfalse (Option.some_ne_none _)
      · intro hall
        exact absurd ((timeToGoalLoop_eq_none_iff c (R / 12) goal 1200 i 0).mpr hall)
          (by simp [h])
  refine ⟨?_, main⟩
  rw [main]
  have hz : ∀ n, iterBal 0 ((1:ℚ)/100/12) 0 n = 0 := by
    intro n
    induction n with
    | zero => rfl
    | succ k ihk =>
      simp only [iterBal, ihk, stepBal]
      norm_num
  intro n hn
  rw [hz]
  norm_num

/-! ## C6: rounding policy of the contribution solver -/

/-- Claim C6 (confirmed): `calculate_minimum_aport` returns the smallest
multiple of 100 that is ≥ the raw closed-form payment (the first
component of `calculate_required_monthly_investment` for the same
inputs) — a ceiling, never a round-to-nearest — and when the goal is
already covered by the principal alone (`remaining ≤ 0`) the result is
≤ 0, not clamped to a nonnegative contribution. -/
theorem contribution_rounding_policy (i desired : ℚ) (y : ℕ) (R : ℚ)
    (hi : 0 ≤ i) (hy : 1 ≤ y) (hR : 0 ≤ R) :
    (∃ k : ℤ, calculate_minimum_aport i desired y R = (k : ℚ) * 100) ∧
    (calculate_required_monthly_investment i y R desired).1 ≤
      calculate_minimum_aport i desired y R ∧
    (∀ k : ℤ, (calculate_required_monthly_investment i y R desired).1 ≤ (k : ℚ) * 100 →
      calculate_minimum_aport i desired y R ≤ (k : ℚ) * 100) ∧
    (desired - i * (1 + R) ^ y ≤ 0 → calculate_minimum_aport i desired y R ≤ 0) := by
  set p := (calculate_required_monthly_investment i y R desired).1 with hp
  have hmin : calculate_minimum_aport i desired y R = (⌈p / 100⌉ : ℚ) * 100 := by
    simp only [calculate_minimum_aport, calculate_required_monthly_investment, hp]
  refine ⟨⟨⌈p / 100⌉, hmin⟩, ?_, ?_, ?_⟩
  · rw [hmin]
    have := Int.le_ceil (p / 100)
    calc p = p / 100 * 100 := by ring
    _ ≤ (⌈p / 100⌉ : ℚ) * 100 := by
        exact mul_le_mul_of_nonneg_right this (by norm_num)
  · intro k hk
    rw [hmin]
    have hk' : p / 100 ≤ (k : ℚ) := by
      rw [div_le_iff (by norm_num : (0:ℚ) < 100)]
      exact hk
    have : ⌈p / 100⌉ ≤ k := Int.ceil_le.mpr hk'
    exact mul_le_mul_of_nonneg_right (by exact_mod_cast this) (by norm_num)
  · intro hrem
    have hple : p ≤ 0 := by
      rw [hp]
      simp only [calculate_required_monthly_investment]
      by_cases hr : 0 < R / 12
      · have hpow : (1:ℚ) < (1 + R / 12) ^ (y * 12) :=
          one_lt_pow₀ (by linarith) (by omega)
        simp only [if_pos hr]
        apply div_nonpos_of_nonpos_of_nonneg
        · exact mul_nonpos_of_nonpos_of_nonneg hrem (le_of_lt hr)
        · linarith
      · simp only [if_neg hr]
        apply div_nonpos_of_nonpos_of_nonneg hrem
        positivity
    rw [hmin]
    have hc : ⌈p / 100⌉ ≤ (0:ℤ) := by
      apply Int.ceil_le.mpr
      push_cast
      exact div_nonpos_of_nonpos_of_nonneg hple (by norm_num)
    have : (⌈p / 100⌉ : ℚ) ≤ 0 := by exact_mod_cast hc
    nlinarith

/-- Witness for C6 at `i = 200000`, `desired = 100000`, `y = 3`,
`R = 1/10` (goal already reachable from the principal alone). -/
theorem contribution_rounding_policy_witness :
    ((0:ℚ) ≤ 200000 ∧ (1:ℕ) ≤ 3 ∧ (0:ℚ) ≤ 1/10) ∧
    ((∃ k : ℤ, calculate_minimum_aport 200000 100000 3 (1/10) = (k : ℚ) * 100) ∧
      (calculate_required_monthly_investment 200000 3 (1/10) 100000).1 ≤
        calculate_minimum_aport 200000 100000 3 (1/10) ∧
      (∀ k : ℤ,
        (calculate_required_monthly_investment 200000 3 (1/10) 100000).1 ≤ (k : ℚ) * 100 →
        calculate_minimum_aport 200000 100000 3 (1/10) ≤ (k : ℚ) * 100) ∧
      ((100000 : ℚ) - 200000 * (1 + 1/10) ^ 3 ≤ 0 →
        calculate_minimum_aport 200000 100000 3 (1/10) ≤ 0)) :=
  ⟨⟨by norm_num, by norm_num, by norm_num⟩,
    contribution_rounding_policy 200000 100000 3 (1/10) (by norm_num) (by norm_num)
      (by norm_num)⟩

/-! ## C8: monotonicity of the future value -/

/-- Claim C8 (confirmed): for nonnegative inputs `calculate_future_value`
is non-decreasing in the number of years, and non-decreasing in the
monthly contribution. -/
theorem future_value_monotone (i c R : ℚ) (hi : 0 ≤ i) (hc : 0 ≤ c) (hR : 0 ≤ R) :
    (∀ y1 y2 : ℕ, y1 ≤ y2 →
      calculate_future_value i c y1 R ≤ calculate_future_value i c y2 R) ∧
    (∀ (y : ℕ) (c1 c2 : ℚ), 0 ≤ c1 → c1 ≤ c2 →
      calculate_future_value i c1 y R ≤ calculate_future_value i c2 y R) := by
  constructor
  · intro y1 y2 hy
    simp only [calculate_future_value]
    set r := R / 12 with hr12
    have h1r : (1:ℚ) ≤ 1 + R := by linarith
    have hfirst : i * (1 + R) ^ y1 ≤ i * (1 + R) ^ y2 :=
      mul_le_mul_of_nonneg_left (pow_le_pow_right₀ h1r hy) hi
    by_cases hr : 0 < r
    · simp only [if_pos hr]
      have h1r' : (1:ℚ) ≤ 1 + r := by linarith
      have hpow : (1 + r) ^ (y1 * 12) ≤ (1 + r) ^ (y2 * 12) :=
        pow_le_pow_right₀ h1r' (by omega)
      have hsecond : c * ((1 + r) ^ (y1 * 12) - 1) / r ≤
          c * ((1 + r) ^ (y2 * 12) - 1) / r :=
        (div_le_div_iff_of_pos_right hr).mpr
          (mul_le_mul_of_nonneg_left (by linarith) hc)
      linarith
    · simp only [if_neg hr]
      have hsecond : c * ((y1 * 12 : ℕ) : ℚ) ≤ c * ((y2 * 12 : ℕ) : ℚ) :=
        mul_le_mul_of_nonneg_left (by exact_mod_cast Nat.mul_le_mul_right 12 hy) hc
      linarith
  · intro y c1 c2 hc1 hc12
    simp only [calculate_future_value]
    set r := R / 12 with hr12
    by_cases hr : 0 < r
    · simp only [if_pos hr]
      have hpow : (1:ℚ) ≤ (1 + r) ^ (y * 12) := one_le_pow₀ (by linarith)
      have hsecond : c1 * ((1 + r) ^ (y * 12) - 1) / r ≤
          c2 * ((1 + r) ^ (y * 12) - 1) / r :=
        (div_le_div_iff_of_pos_right hr).mpr
          (mul_le_mul_of_nonneg_right hc12 (by linarith))
      linarith
    · simp only [if_neg hr]
      have hsecond : c1 * ((y * 12 : ℕ) : ℚ) ≤ c2 * ((y * 12 : ℕ) : ℚ) :=
        mul_le_mul_of_nonneg_right hc12 (by positivity)
      linarith

/-- Witness for C8 at `i = 1000`, `c = 100`, `R = 1/10`. -/
theorem future_value_monotone_witness :
    ((0:ℚ) ≤ 1000 ∧ (0:ℚ) ≤ 100 ∧ (0:ℚ) ≤ 1/10) ∧
    ((∀ y1 y2 : ℕ, y1 ≤ y2 →
        calculate_future_value 1000 100 y1 (1/10) ≤
          calculate_future_value 1000 100 y2 (1/10)) ∧
      (∀ (y : ℕ) (c1 c2 : ℚ), 0 ≤ c1 → c1 ≤ c2 →
        calculate_future_value 1000 c1 y (1/10) ≤
          calculate_future_value 1000 c2 y (1/10))) :=
  ⟨⟨by norm_num, by norm_num, by norm_num⟩,
    future_value_monotone 1000 100 (1/10) (by norm_num) (by norm_num) (by norm_num)⟩

/-! ## C9: budget allocation invariant -/

/-- Claim C9 (confirmed): constructing a `BudgetGoal` fails exactly when
the percentages sum to more than 100 or some percentage is negative
(construction is atomic: on failure no object exists), and the two
concrete constructions `{Housing: 60, Food: 50}` and `{Housing: -5}`
both fail. -/
theorem allocation_invariant :
    (∀ allocations : List (String × ℚ),
      budgetGoalMake allocations = none ↔
        100 < (allocations.map (fun p => p.2)).sum ∨ ∃ p ∈ allocations, p.2 < 0) ∧
    budgetGoalMake [("Housing", 60), ("Food", 50)] = none ∧
    budgetGoalMake [("Housing", -5)] = none := by
  refine ⟨?_, ?_, ?_⟩
  · intro allocations
    simp only [budgetGoalMake]
    by_cases h1 : 100 < (allocations.map (fun p => p.2)).sum
    · simp [h1]
    · by_cases h2 : (allocations.any fun p => decide (p.2 < 0)) = true
      · simp only [if_neg h1, if_pos h2]
        simp only [List.any_eq_true, decide_eq_true_eq] at h2
        simp [h1, h2]
      · simp only [if_neg h1, if_neg h2]
        simp only [List.any_eq_true, decide_eq_true_eq] at h2
        simp [h1, h2]
  · norm_num [budgetGoalMake]
  · norm_num [budgetGoalMake]

/-! ## C1: timeline consistency -/

theorem timelineGo_consistent (i c r : ℚ) :
    ∀ (k month : ℕ) (cur : ℚ), ∀ p ∈ timelineGo i c r k month cur,
      p.totalAmount = p.totalInvested + p.totalReturns := by
  intro k
  induction k with
  | zero =>
    intro month cur p hp
    simp [timelineGo] at hp
  | succ n ih =>
    intro month cur p hp
    simp only [timelineGo, List.mem_cons] at hp
    rcases hp with h | h
    · subst h
      simp only
      ring
    · exact ih _ _ p h

theorem timelineGo_ne_nil (i c r : ℚ) (k month : ℕ) (cur : ℚ) (hk : k ≠ 0) :
    timelineGo i c r k month cur ≠ [] := by
  cases k with
  | zero => exact absurd rfl hk
  | succ n => simp [timelineGo]

theorem getLast?_cons_of_ne_nil {α : Type} (a : α) {l : List α} (h : l ≠ []) :
    (a :: l).getLast? = l.getLast? := by
  cases l with
  | nil => exact absurd rfl h
  | cons b t => exact List.getLast?_cons_cons

theorem timelineGo_getLast_amount (i c r : ℚ) :
    ∀ (k month : ℕ) (cur : ℚ), k ≠ 0 →
      (timelineGo i c r k month cur).getLast?.map ProjectionPoint.totalAmount =
        some (iterBal c r cur k) := by
  intro k
  induction k with
  | zero => intro month cur h; exact absurd rfl h
  | succ n ih =>
    intro month cur _
    by_cases hn : n = 0
    · subst hn
      simp [timelineGo, iterBal, stepBal]
    · simp only [timelineGo]
      rw [getLast?_cons_of_ne_nil _ (timelineGo_ne_nil i c r n (month + 1) _ hn)]
      rw [ih (month + 1) _ hn]
      rw [show cur + c + (cur + c) * r = stepBal c r cur from rfl]
      rw [iterBal_shift]

set_option maxHeartbeats 1000000 in
/-- Claim C1 (corrected): every point of the timeline satisfies
`totalAmount = totalInvested + totalReturns` (exactly, hence within the
1e-6 relative tolerance), but the final point's `totalAmount` equals the
monthly-compounded annuity-due closed form `futureValueMonthlyDue` of the
simulation, not `calculate_future_value` (which compounds the principal
annually and pays the annuity at the end of each month). -/
theorem timeline_consistency_amended (i c R : ℚ) (y : ℕ)
    (hi : 0 ≤ i) (hc : 0 ≤ c) (hR : 0 ≤ R) :
    (∀ p ∈ create_investment_timeline i c y R,
        relClose (1/1000000) p.totalAmount (p.totalInvested + p.totalReturns)) ∧
    (create_investment_timeline i c y R).getLast?.map ProjectionPoint.totalAmount =
      some (futureValueMonthlyDue i c y R) := by
  constructor
  · intro p hp
    have hexact : p.totalAmount = p.totalInvested + p.totalReturns := by
      simp only [create_investment_timeline, List.mem_cons] at hp
      rcases hp with h | h
      · subst h
        simp
      · exact timelineGo_consistent i c (R / 12) (y * 12) 1 i p h
    rw [hexact]
    unfold relClose
    simp only [sub_self, abs_zero]
    positivity
  · have hmain : (create_investment_timeline i c y R).getLast?.map
        ProjectionPoint.totalAmount = some (iterBal c (R / 12) i (y * 12)) := by
      by_cases hy : y * 12 = 0
      · simp only [create_investment_timeline, hy, timelineGo, iterBal]
        simp
      · simp only [create_investment_timeline]
        rw [getLast?_cons_of_ne_nil _ (timelineGo_ne_nil i c (R / 12) (y * 12) 1 i hy)]
        exact timelineGo_getLast_amount i c (R / 12) (y * 12) 1 i hy
    rw [hmain]
    congr 1
    unfold futureValueMonthlyDue
    by_cases hr : 0 < R / 12
    · rw [if_pos hr, iterBal_closed_form c (R / 12) i (ne_of_gt hr)]
    · rw [if_neg hr]
      have hR0 : R = 0 := le_antisymm (by linarith [not_lt.mp hr]) hR
      subst hR0
      norm_num [iterBal_zero_rate]

/-- Witness for the amended C1 at `i = 10000`, `c = 0`, `y = 1`, `R = 1/10`. -/
theorem timeline_consistency_amended_witness :
    ((0:ℚ) ≤ 10000 ∧ (0:ℚ) ≤ 0 ∧ (0:ℚ) ≤ 1/10) ∧
    ((∀ p ∈ create_investment_timeline 10000 0 1 (1/10),
        relClose (1/1000000) p.totalAmount (p.totalInvested + p.totalReturns)) ∧
      (create_investment_timeline 10000 0 1 (1/10)).getLast?.map
          ProjectionPoint.totalAmount =
        some (futureValueMonthlyDue 10000 0 1 (1/10))) :=
  ⟨⟨by norm_num, le_refl 0, by norm_num⟩,
    timeline_consistency_amended 10000 0 (1/10) 1 (by norm_num) (le_refl 0) (by norm_num)⟩

set_option maxHeartbeats 4000000 in
/-- Counterexample to C1 as stated: at
`(initial 10000, contribution 0, years 1, rate 0.10)` the final timeline
amount is `10000 * (1 + 0.10/12)^12 ≈ 11047.13`, while
`calculate_future_value` gives `10000 * 1.10 = 11000`; they differ by far
more than 1e-6 relative tolerance. -/
theorem timeline_consistency_counterexample :
    (create_investment_timeline 10000 0 1 (1/10)).getLast?.map
        ProjectionPoint.totalAmount = some ((10000 : ℚ) * (121/120) ^ 12) ∧
    ¬ relClose (1/1000000) ((10000 : ℚ) * (121/120) ^ 12)
        (calculate_future_value 10000 0 1 (1/10)) := by
  constructor
  · norm_num [create_investment_timeline, timelineGo]
  · intro h
    rw [show calculate_future_value 10000 0 1 (1/10) = 11000 by
      norm_num [calculate_future_value]] at h
    unfold relClose at h
    rw [abs_of_pos (by norm_num), abs_of_pos (by norm_num)] at h
    norm_num at h

/-! ## C3: year-range bounds -/

theorem minYearsSearch_bounds (ia mi ar da : ℚ) :
    ∀ (fuel : ℕ) (lo hi : ℤ), lo ≤ hi →
      lo ≤ minYearsSearch ia mi ar da fuel lo hi ∧
        minYearsSearch ia mi ar da fuel lo hi ≤ hi := by
  intro fuel
  induction fuel with
  | zero =>
    intro lo hi h
    exact ⟨le_refl lo, h⟩
  | succ f ih =>
    intro lo hi h
    simp only [minYearsSearch]
    by_cases hlt : lo < hi
    · rw [if_pos hlt]
      have hfd : (lo + hi).fdiv 2 = (lo + hi) / 2 := Int.fdiv_eq_ediv _ (by norm_num)
      by_cases hcond : da ≤ calculate_future_value ia mi ((lo + hi).fdiv 2).toNat ar
      · rw [if_pos hcond]
        obtain ⟨ha, hb⟩ := ih lo ((lo + hi).fdiv 2) (by rw [hfd]; omega)
        exact ⟨ha, le_trans hb (by rw [hfd]; omega)⟩
      · rw [if_neg hcond]
        obtain ⟨ha, hb⟩ := ih ((lo + hi).fdiv 2 + 1) hi (by rw [hfd]; omega)
        exact ⟨le_trans (by rw [hfd]; omega) ha, hb⟩
    · rw [if_neg hlt]
      exact ⟨le_refl lo, h⟩

theorem rangeInt_length (a b s : ℤ) :
    (rangeInt a b s).length = ((b - a + s - 1).fdiv s).toNat := by
  simp [rangeInt]

theorem rangeInt_sorted (a b s : ℤ) (hs : 0 < s) :
    List.Sorted (· < ·) (rangeInt a b s) := by
  unfold rangeInt
  rw [List.Sorted, List.pairwise_map]
  exact (List.pairwise_lt_range _).imp (fun {i j} hij => by
    have hij' : (i : ℤ) < (j : ℤ) := by exact_mod_cast hij
    have hlt := (mul_lt_mul_left hs).mpr hij'
    linarith)

theorem rangeInt_mem_lt (a b s : ℤ) (hs : 0 < s) :
    ∀ x ∈ rangeInt a b s, a ≤ x ∧ x < b := by
  intro x hx
  unfold rangeInt at hx
  simp only [List.mem_map, List.mem_range] at hx
  obtain ⟨i, hi, rfl⟩ := hx
  have hsi : (0:ℤ) ≤ s * (i : ℤ) := mul_nonneg (le_of_lt hs) (by positivity)
  refine ⟨by omega, ?_⟩
  have hD : ((b - a + s - 1).fdiv s) = (b - a + s - 1) / s :=
    Int.fdiv_eq_ediv _ (le_of_lt hs)
  have hn : (i : ℤ) < (b - a + s - 1) / s := by
    rw [← hD]
    exact_mod_cast Int.lt_toNat.mp hi
  have hmul : (b - a + s - 1) / s * s ≤ b - a + s - 1 :=
    Int.ediv_mul_le _ (ne_of_gt hs)
  have hstep : s * (i : ℤ) ≤ s * ((b - a + s - 1) / s - 1) :=
    mul_le_mul_of_nonneg_left (by omega) (le_of_lt hs)
  have hexp : s * ((b - a + s - 1) / s - 1) = (b - a + s - 1) / s * s - s := by ring
  omega

theorem rangeInt_head (a b s : ℤ) (h : (rangeInt a b s).length ≠ 0) :
    (rangeInt a b s).head? = some a := by
  unfold rangeInt at h ⊢
  rw [List.length_map, List.length_range] at h
  obtain ⟨n, hn⟩ : ∃ n, ((b - a + s - 1).fdiv s).toNat = n + 1 :=
    ⟨((b - a + s - 1).fdiv s).toNat - 1, by omega⟩
  rw [hn, List.range_succ_eq_map]
  simp

theorem popMiddle_spec (np : ℕ) (hnp : 2 ≤ np) :
    ∀ (fuel : ℕ) (l : List ℤ),
      List.Sorted (· < ·) l → np ≤ l.length → l.length ≤ np + fuel →
      (popMiddle np fuel l).length = np ∧
      List.Sorted (· < ·) (popMiddle np fuel l) ∧
      (∀ x ∈ popMiddle np fuel l, x ∈ l) ∧
      (popMiddle np fuel l).head? = l.head? := by
  intro fuel
  induction fuel with
  | zero =>
    intro l hs hge hle
    unfold popMiddle
    exact ⟨by omega, hs, fun x hx => hx, rfl⟩
  | succ f ih =>
    intro l hs hge hle
    simp only [popMiddle]
    by_cases hlen : np < l.length
    · rw [if_pos hlen]
      have hidx : l.length / 2 < l.length := Nat.div_lt_self (by omega) (by norm_num)
      have herase_len : (l.eraseIdx (l.length / 2)).length = l.length - 1 := by
        rw [List.length_eraseIdx_of_lt hidx]
      have hsub : List.Sublist (l.eraseIdx (l.length / 2)) l :=
        List.eraseIdx_sublist l (l.length / 2)
      have hsorted' : List.Sorted (· < ·) (l.eraseIdx (l.length / 2)) :=
        List.Pairwise.sublist hsub hs
      obtain ⟨hl1, hl2, hl3, hl4⟩ := ih (l.eraseIdx (l.length / 2)) hsorted'
        (by omega) (by omega)
      refine ⟨hl1, hl2, fun x hx => hsub.subset (hl3 x hx), ?_⟩
      rw [hl4]
      cases l with
      | nil => simp at hlen
      | cons a t =>
        obtain ⟨j, hj⟩ : ∃ j, (a :: t).length / 2 = j + 1 := by
          have hl2 : np < t.length + 1 := by simpa using hlen
          refine ⟨(a :: t).length / 2 - 1, ?_⟩
          simp only [List.length_cons]
          omega
        rw [hj, List.eraseIdx_cons_succ]
        simp
    · rw [if_neg hlen]
      exact ⟨by omega, hs, fun x hx => hx, rfl⟩

theorem insertGaps_of_length_le (np fuel : ℕ) (l : List ℤ) (h : ¬ l.length < np) :
    insertGaps np fuel l = l := by
  cases fuel with
  | zero => rfl
  | succ f => simp only [insertGaps, if_neg h]

theorem insertAsc_of_le (a : ℤ) (l : List ℤ) (h : ∀ x ∈ l, a ≤ x) :
    insertAsc a l = a :: l := by
  cases l with
  | nil => rfl
  | cons b t => simp [insertAsc, h b (by simp)]

theorem sortAsc_of_sorted : ∀ l : List ℤ, List.Sorted (· < ·) l → sortAsc l = l
  | [], _ => rfl
  | a :: t, h => by
    have ht : List.Sorted (· < ·) t := h.of_cons
    rw [sortAsc, sortAsc_of_sorted t ht]
    exact insertAsc_of_le a t (fun x hx => le_of_lt (List.rel_of_sorted_cons h x hx))

/-- Claim C3 (corrected): when the derived window
`[max(minYears, needed-5), min(maxYears, needed+20)]` spans at least
`numPoints - 1` years, `calculate_year_ranges` returns exactly
`numPoints` strictly ascending integers, all within
`[minYears, maxYears]`, including the window's start.  (As stated the
claim is false: for narrower windows the gap-insertion loop inserts
duplicate years, and the window's end is not always included — with an
even step the last range point can stop short of `max_range`.) -/
theorem year_range_bounds_amended (ia da mi ar : ℚ) (min_years max_years : ℤ)
    (np : ℕ) (h1 : 1 ≤ min_years) (h2 : min_years ≤ max_years) (h3 : 2 ≤ np)
    (hspan : (np : ℤ) - 1 ≤ windowHi ia da mi ar min_years max_years -
      windowLo ia da mi ar min_years max_years) :
    (calculate_year_ranges ia da mi ar min_years max_years np).length = np ∧
    List.Sorted (· < ·) (calculate_year_ranges ia da mi ar min_years max_years np) ∧
    (∀ x ∈ calculate_year_ranges ia da mi ar min_years max_years np,
      min_years ≤ x ∧ x ≤ max_years) ∧
    windowLo ia da mi ar min_years max_years ∈
      calculate_year_ranges ia da mi ar min_years max_years np := by
  set lo := windowLo ia da mi ar min_years max_years with hlo
  set hi := windowHi ia da mi ar min_years max_years with hhi
  have hlo_min : min_years ≤ lo := le_max_left _ _
  have hhi_max : hi ≤ max_years := min_le_left _ _
  have hd1 : (1:ℤ) ≤ (np : ℤ) - 1 := by
    have : (2:ℤ) ≤ (np : ℤ) := by exact_mod_cast h3
    omega
  have hq1 : 1 ≤ (hi - lo).fdiv ((np : ℤ) - 1) := by
    rw [Int.fdiv_eq_ediv _ (by omega)]
    rw [Int.le_ediv_iff_mul_le (by omega)]
    omega
  set s := max ((hi - lo).fdiv ((np : ℤ) - 1)) 1 with hs_def
  have hs_eq : s = (hi - lo).fdiv ((np : ℤ) - 1) := max_eq_left hq1
  have hs1 : (1:ℤ) ≤ s := le_max_right _ _
  have hs0 : (0:ℤ) < s := by omega
  have hlen_ge : np ≤ (rangeInt lo (hi + 1) s).length := by
    rw [rangeInt_length]
    have hrw : (hi + 1 - lo + s - 1) = (hi - lo) + 1 * s := by ring
    rw [hrw, Int.fdiv_eq_ediv _ (by omega), Int.add_mul_ediv_right _ _ (by omega)]
    have hds : (np : ℤ) - 1 ≤ (hi - lo) / s := by
      rw [Int.le_ediv_iff_mul_le hs0]
      have hfe : s = (hi - lo) / ((np : ℤ) - 1) := by
        rw [hs_eq, Int.fdiv_eq_ediv _ (by omega)]
      calc ((np : ℤ) - 1) * s = (hi - lo) / ((np : ℤ) - 1) * ((np : ℤ) - 1) := by
            rw [hfe]; ring
      _ ≤ hi - lo := Int.ediv_mul_le _ (by omega)
    omega
  have hrange_sorted := rangeInt_sorted lo (hi + 1) s hs0
  have hrange_bounds := rangeInt_mem_lt lo (hi + 1) s hs0
  have hhead := rangeInt_head lo (hi + 1) s (by omega)
  obtain ⟨hp_len, hp_sorted, hp_sub, hp_head⟩ :=
    popMiddle_spec np h3 (rangeInt lo (hi + 1) s).length (rangeInt lo (hi + 1) s)
      hrange_sorted hlen_ge (by omega)
  have hcalc : calculate_year_ranges ia da mi ar min_years max_years np =
      popMiddle np (rangeInt lo (hi + 1) s).length (rangeInt lo (hi + 1) s) := by
    simp only [calculate_year_ranges, ← hlo, ← hhi, ← hs_def]
    rw [insertGaps_of_length_le np np _ (by omega)]
    exact sortAsc_of_sorted _ hp_sorted
  rw [hcalc]
  refine ⟨hp_len, hp_sorted, ?_, ?_⟩
  · intro x hx
    obtain ⟨ha, hb⟩ := hrange_bounds x (hp_sub x hx)
    exact ⟨le_trans hlo_min ha, by omega⟩
  · have hh : (popMiddle np (rangeInt lo (hi + 1) s).length
        (rangeInt lo (hi + 1) s)).head? = some lo := by rw [hp_head, hhead]
    exact List.mem_of_mem_head? (by rw [hh]; rfl)

/-- Witness for the amended C3 at
`(initial 0, desired 1000000, monthly income 0, rate 0, years 5..8,
4 points)`. -/
theorem year_range_bounds_amended_witness :
    ((1:ℤ) ≤ 5 ∧ (5:ℤ) ≤ 8 ∧ (2:ℕ) ≤ 4 ∧
      ((4:ℕ) : ℤ) - 1 ≤ windowHi 0 1000000 0 0 5 8 - windowLo 0 1000000 0 0 5 8) ∧
    ((calculate_year_ranges 0 1000000 0 0 5 8 4).length = 4 ∧
      List.Sorted (· < ·) (calculate_year_ranges 0 1000000 0 0 5 8 4) ∧
      (∀ x ∈ calculate_year_ranges 0 1000000 0 0 5 8 4, (5:ℤ) ≤ x ∧ x ≤ 8) ∧
      windowLo 0 1000000 0 0 5 8 ∈ calculate_year_ranges 0 1000000 0 0 5 8 4) :=
  ⟨⟨by norm_num, by norm_num, by norm_num, by
      norm_num [windowLo, windowHi, minYearsNeeded, minYearsSearch,
        calculate_future_value, Int.fdiv]⟩,
    year_range_bounds_amended 0 1000000 0 0 5 8 4 (by norm_num) (by norm_num)
      (by norm_num)
      (by norm_num [windowLo, windowHi, minYearsNeeded, minYearsSearch,
        calculate_future_value, Int.fdiv])⟩

/-- Counterexample to C3 as stated: with `minYears = 5`, `maxYears = 6`,
`numPoints = 7` (and inputs making the goal unreachable, so the derived
window is `[5, 6]`), the function returns `[5, 5, 5, 5, 5, 5, 6]` — seven
integers, but with duplicates, not strictly ascending. -/
theorem year_range_counterexample :
    calculate_year_ranges 0 1000000 0 (1/10) 5 6 7 = [5, 5, 5, 5, 5, 5, 6] ∧
    ¬ List.Sorted (· < ·) (calculate_year_ranges 0 1000000 0 (1/10) 5 6 7) := by
  have hmn : minYearsNeeded 0 1000000 0 (1/10) 5 6 = 6 := by
    norm_num [minYearsNeeded, minYearsSearch, calculate_future_value, Int.fdiv]
  have heq : calculate_year_ranges 0 1000000 0 (1/10) 5 6 7 = [5, 5, 5, 5, 5, 5, 6] := by
    simp only [calculate_year_ranges, windowLo, windowHi, hmn]
    decide
  refine ⟨heq, ?_⟩
  rw [heq]
  decide

/-! ## C5: contribution ladder -/

theorem roundHalfEven_ge_floor (t : ℝ) : ⌊t⌋ ≤ roundHalfEven t := by
  unfold roundHalfEven
  split_ifs <;> omega

theorem roundHalfEven_le_floor_add_one (t : ℝ) : roundHalfEven t ≤ ⌊t⌋ + 1 := by
  unfold roundHalfEven
  split_ifs <;> omega

theorem roundHalfEven_mono {x y : ℝ} (h : x ≤ y) :
    roundHalfEven x ≤ roundHalfEven y := by
  have hf : ⌊x⌋ ≤ ⌊y⌋ := Int.floor_le_floor h
  rcases lt_or_eq_of_le hf with hlt | heq
  · calc roundHalfEven x ≤ ⌊x⌋ + 1 := roundHalfEven_le_floor_add_one x
    _ ≤ ⌊y⌋ := by omega
    _ ≤ roundHalfEven y := roundHalfEven_ge_floor y
  · have hfr : Int.fract x ≤ Int.fract y := by
      rw [Int.fract, Int.fract, ← heq]
      linarith
    unfold roundHalfEven
    rw [← heq]
    by_cases c1 : Int.fract x < 1/2
    · rw [if_pos c1]
      split_ifs <;> omega
    · rw [if_neg c1]
      have hy1 : ¬ Int.fract y < 1/2 := by
        have := not_lt.mp c1
        intro hcon
        linarith
      rw [if_neg hy1]
      by_cases c2 : 1/2 < Int.fract y
      · rw [if_pos c2]
        split_ifs <;> omega
      · rw [if_neg c2]
        have hx2 : ¬ 1/2 < Int.fract x := by
          have := not_lt.mp c2
          intro hcon
          linarith
        rw [if_neg hx2]

theorem round2R_mono {x y : ℝ} (h : x ≤ y) : round2R x ≤ round2R y := by
  unfold round2R
  have := roundHalfEven_mono (show x * 100 ≤ y * 100 by linarith)
  have hc : ((roundHalfEven (x * 100) : ℤ) : ℝ) ≤ ((roundHalfEven (y * 100) : ℤ) : ℝ) := by
    exact_mod_cast this
  linarith

theorem round2R_intCast (k : ℤ) : round2R ((k : ℝ)) = (k : ℝ) := by
  unfold round2R roundHalfEven
  have h1 : ((k : ℝ)) * 100 = ((k * 100 : ℤ) : ℝ) := by push_cast; ring
  rw [h1, Int.fract_intCast, Int.floor_intCast]
  norm_num

/-- Claim C5 (corrected): `create_aport_amounts` returns exactly `qtd`
amounts, each rounded to cent precision, starting at the baseline (1% of
monthly income rounded up to the nearest 100) and ending at the minimum
required contribution rounded to cents; it uses arithmetic progression
when the minimum required contribution is at or below the baseline and
geometric progression otherwise.  In the arithmetic branch the amounts
are non-increasing (they step DOWN from the baseline to the minimum), not
ascending as claimed; in the geometric branch they are non-decreasing. -/
theorem contribution_ladder_amended (annual_income min_aport : ℚ) (qtd : ℕ)
    (hinc : 0 < annual_income) (hmin : 0 < min_aport) (hq : 2 ≤ qtd) :
    (create_aport_amounts annual_income min_aport qtd).length = qtd ∧
    (create_aport_amounts annual_income min_aport qtd).head? =
      some (baseAport annual_income) ∧
    (create_aport_amounts annual_income min_aport qtd).getLast? =
      some (round2R ((min_aport : ℝ))) ∧
    (if (min_aport : ℝ) ≤ baseAport annual_income then
      List.Chain' (fun a b => b ≤ a) (create_aport_amounts annual_income min_aport qtd)
    else
      List.Chain' (fun a b => a ≤ b) (create_aport_amounts annual_income min_aport qtd)) := by
  set B := baseAport annual_income with hB
  have hbase_pos : (0:ℝ) < B := by
    rw [hB]
    unfold baseAport
    have ha : (0:ℝ) < (annual_income : ℝ) := by exact_mod_cast hinc
    have h0 : (0:ℝ) < ((annual_income : ℝ) / 12) * 0.01 / 100 := by positivity
    have hc : 0 < ⌈((annual_income : ℝ) / 12) * 0.01 / 100⌉ := Int.ceil_pos.mpr h0
    have hc' : (1:ℝ) ≤ (⌈((annual_income : ℝ) / 12) * 0.01 / 100⌉ : ℝ) := by
      exact_mod_cast hc
    linarith
  have hbase_round : round2R B = B := by
    rw [hB]
    unfold baseAport
    have hrw : ((⌈((annual_income : ℝ) / 12) * 0.01 / 100⌉ : ℤ) : ℝ) * 100 =
        ((⌈((annual_income : ℝ) / 12) * 0.01 / 100⌉ * 100 : ℤ) : ℝ) := by
      push_cast
      ring
    rw [hrw, round2R_intCast]
  have hd : (0:ℝ) < (qtd : ℝ) - 1 := by
    have : (2:ℝ) ≤ (qtd : ℝ) := by exact_mod_cast hq
    linarith
  obtain ⟨m, hm⟩ : ∃ m, qtd = m + 1 := ⟨qtd - 1, by omega⟩
  have hmcast : (m : ℝ) = (qtd : ℝ) - 1 := by
    rw [hm]
    push_cast
    ring
  by_cases hcase : (min_aport : ℝ) ≤ B
  · simp only [create_aport_amounts, ← hB, if_pos hcase]
    set step := ((min_aport : ℝ) - B) / ((qtd : ℝ) - 1) with hstep
    have hstep_np : step ≤ 0 :=
      div_nonpos_of_nonpos_of_nonneg (by linarith) (le_of_lt hd)
    refine ⟨by simp, ?_, ?_, ?_⟩
    · rw [hm, List.range_succ_eq_map]
      simp only [List.map_cons, List.head?_cons]
      rw [Nat.cast_zero, mul_zero, add_zero, hbase_round]
    · rw [List.getLast?_map, hm]
      simp only [List.getLast?_range, Option.map_some]
      have harg : B + step * (m : ℝ) = (min_aport : ℝ) := by
        rw [hstep, hmcast]
        field_simp
      simp [harg]
    · rw [List.chain'_map, hm]
      rw [List.chain'_range_succ]
      intro j hj
      apply round2R_mono
      have : step * ((j:ℝ) + 1) ≤ step * (j:ℝ) :=
        mul_le_mul_of_nonpos_left (by linarith) hstep_np
      push_cast
      linarith
  · simp only [create_aport_amounts, ← hB, if_neg hcase]
    set gr := ((min_aport : ℝ) / B) ^ ((1 : ℝ) / ((qtd : ℝ) - 1)) with hgr_def
    have hlt : B < (min_aport : ℝ) := not_le.mp hcase
    have hx0 : (0:ℝ) ≤ (min_aport : ℝ) / B := by positivity
    have hx1 : (1:ℝ) ≤ (min_aport : ℝ) / B :=
      (one_le_div hbase_pos).mpr (le_of_lt hlt)
    have hgr1 : (1:ℝ) ≤ gr := Real.one_le_rpow hx1 (by positivity)
    refine ⟨by simp, ?_, ?_, ?_⟩
    · rw [hm, List.range_succ_eq_map]
      simp only [List.map_cons, List.head?_cons]
      rw [pow_zero, mul_one, hbase_round]
    · rw [List.getLast?_map, hm]
      simp only [List.getLast?_range, Option.map_some]
      have hpow : gr ^ m = (min_aport : ℝ) / B := by
        rw [hgr_def, ← Real.rpow_natCast
          (((min_aport : ℝ) / B) ^ ((1 : ℝ) / ((qtd : ℝ) - 1))) m,
          ← Real.rpow_mul hx0, hmcast, one_div_mul_cancel (ne_of_gt hd),
          Real.rpow_one]
      have harg : B * gr ^ m = (min_aport : ℝ) := by
        rw [hpow, mul_comm, div_mul_cancel₀ _ (ne_of_gt hbase_pos)]
      simp [harg]
    · rw [List.chain'_map, hm]
      rw [List.chain'_range_succ]
      intro j hj
      apply round2R_mono
      have hpw : gr ^ j ≤ gr ^ (j + 1) := pow_le_pow_right₀ hgr1 (by omega)
      exact mul_le_mul_of_nonneg_left hpw (le_of_lt hbase_pos)

/-- Counterexample to C5 as stated: with annual income 120000 (monthly
10000, baseline 100) and minimum required contribution 50, the two
generated amounts are `[100, 50]` — descending, not ascending. -/
theorem contribution_ladder_counterexample :
    create_aport_amounts 120000 50 2 = [100, 50] ∧
    ¬ List.Sorted (· ≤ ·) (create_aport_amounts 120000 50 2) := by
  have hbase : baseAport 120000 = 100 := by
    unfold baseAport
    have h1 : ((120000 : ℚ) : ℝ) / 12 * 0.01 / 100 = 1 := by norm_num
    rw [h1, Int.ceil_one]
    norm_num
  have h100 : round2R (100 : ℝ) = 100 := by
    have h := round2R_intCast 100
    norm_num at h
    exact h
  have h50 : round2R (50 : ℝ) = 50 := by
    have h := round2R_intCast 50
    norm_num at h
    exact h
  have hlist : create_aport_amounts 120000 50 2 = [100, 50] := by
    simp only [create_aport_amounts, hbase]
    rw [if_pos (by norm_num : ((50:ℚ):ℝ) ≤ (100:ℝ))]
    have hr2 : List.range 2 = [0, 1] := rfl
    rw [hr2]
    simp only [List.map_cons, List.map_nil]
    norm_num [h100, h50]
  refine ⟨hlist, ?_⟩
  rw [hlist]
  intro hsorted
  have h5 := List.rel_of_sorted_cons hsorted 50 (by simp)
  norm_num at h5

/-- Witness for the amended C5 at
`(annual income 120000, minimum contribution 50, 2 amounts)`. -/
theorem contribution_ladder_amended_witness :
    ((0:ℚ) < 120000 ∧ (0:ℚ) < 50 ∧ (2:ℕ) ≤ 2) ∧
    ((create_aport_amounts 120000 50 2).length = 2 ∧
      (create_aport_amounts 120000 50 2).head? = some (baseAport 120000) ∧
      (create_aport_amounts 120000 50 2).getLast? = some (round2R (((50:ℚ) : ℝ))) ∧
      (if ((50:ℚ) : ℝ) ≤ baseAport 120000 then
        List.Chain' (fun a b => b ≤ a) (create_aport_amounts 120000 50 2)
      else
        List.Chain' (fun a b => a ≤ b) (create_aport_amounts 120000 50 2))) :=
  ⟨⟨by norm_num, by norm_num, by norm_num⟩,
    contribution_ladder_amended 120000 50 2 (by norm_num) (by norm_num) (by norm_num)⟩
